import Mathlib

/-!
Shallow embedding of the go-oci-registry server (src/main.go) in Lean 4.

Strings are modelled as `List Char` (the server only handles ASCII URIs and
names, where Go's byte-wise operations agree with `Char`-wise ones), and file
contents as `List Nat` (one `Nat` per byte, values < 256).

The filesystem-backed state of one repository `<root>/<name>/` is modelled by
`Repo` below.  `crypto/sha256` (Go standard library) is embedded as a full
executable SHA-256 over byte lists.
-/

abbrev Str := List Char

abbrev Bytes := List Nat

/-! ## Go string helpers (package `strings`) -/

/-- Go `strings.HasPrefix`-style test: `hasPre pat s` is true when `pat` is a
leading segment of `s`. -/
def hasPre : Str → Str → Bool
  | [], _ => true
  | _ :: _, [] => false
  | p :: ps, c :: cs => decide (p = c) && hasPre ps cs

/-- Go `strings.TrimPrefix(s, pat)`: drops `pat` from the front of `s` when it
is present, otherwise returns `s` unchanged. -/
def dropPre (pat s : Str) : Str :=
  if hasPre pat s then s.drop pat.length else s

/-- Go `strings.Contains(s, pat)`. -/
def containsStr : Str → Str → Bool
  | [], pat => hasPre pat []
  | c :: rest, pat => hasPre pat (c :: rest) || containsStr rest pat

/-- Go `strings.HasSuffix(s, pat)`. -/
def hasSuffixStr (s pat : Str) : Bool :=
  hasPre pat.reverse s.reverse

/-- Go `strings.Count(s, "/")`: number of `'/'` characters of `s`. -/
def countSlash : Str → Nat
  | [] => 0
  | c :: rest => (if c = '/' then 1 else 0) + countSlash rest

/-- Go `strings.Split(s, "/")`.  Always returns a non-empty list; splitting
the empty string yields `[[]]`, exactly as in Go. -/
def splitOnSlash : Str → List Str
  | [] => [[]]
  | c :: rest =>
    if c = '/' then [] :: splitOnSlash rest
    else (c :: (splitOnSlash rest).headD []) :: (splitOnSlash rest).tail

/-- Go `strings.Join(parts, "/")`. -/
def joinSlash : List Str → Str
  | [] => []
  | [p] => p
  | p :: ps => p ++ '/' :: joinSlash ps

/-! ## The three regexes of src/main.go (lines 24-29), as executable checkers

`nameRegex   = ^[a-z0-9]+([._-][a-z0-9]+)*(/[a-z0-9]+([._-][a-z0-9]+)*)*$`
`refRegex    = ^[a-zA-Z0-9_][a-zA-Z0-9._-]{1,127}$`
`digestRegex = ^sha256:([a-f0-9]{64})$`

All three patterns are anchored, so `regexp.MatchString` is a full match. -/

def isLowerAl (c : Char) : Bool :=
  'a'.toNat ≤ c.toNat && c.toNat ≤ 'z'.toNat

def isUpperAl (c : Char) : Bool :=
  'A'.toNat ≤ c.toNat && c.toNat ≤ 'Z'.toNat

def isDigitCh (c : Char) : Bool :=
  '0'.toNat ≤ c.toNat && c.toNat ≤ '9'.toNat

/-- Character class `[a-z0-9]` of the name regex. -/
def nameAl (c : Char) : Bool := isLowerAl c || isDigitCh c

/-- Character class `[._-]` of the name regex. -/
def nameSep (c : Char) : Bool := decide (c = '.') || decide (c = '_') || decide (c = '-')

/-- Scanner for the tail of a name component, entered right after an
`[a-z0-9]` character: accepts `([._-][a-z0-9]+)*` interleaved with further
`[a-z0-9]` characters. -/
def compTail : Str → Bool
  | [] => true
  | c :: rest =>
    if nameAl c then compTail rest
    else if nameSep c then
      match rest with
      | [] => false
      | d :: rest2 => nameAl d && compTail rest2
    else false

/-- One path component of the name grammar: `[a-z0-9]+([._-][a-z0-9]+)*`. -/
def compOK : Str → Bool
  | [] => false
  | c :: rest => nameAl c && compTail rest

/-- Full-match of `nameRegex`: slash-separated non-empty components. -/
def nameOK (s : Str) : Bool :=
  (splitOnSlash s).all compOK

/-- First-character class `[a-zA-Z0-9_]` of `refRegex`. -/
def refChar1 (c : Char) : Bool :=
  isLowerAl c || isUpperAl c || isDigitCh c || decide (c = '_')

/-- Tail-character class `[a-zA-Z0-9._-]` of `refRegex`. -/
def refChar2 (c : Char) : Bool :=
  isLowerAl c || isUpperAl c || isDigitCh c || decide (c = '.') || decide (c = '_') || decide (c = '-')

/-- Full-match of `refRegex`: one class-1 character followed by 1 to 127
class-2 characters. -/
def refOK : Str → Bool
  | [] => false
  | c :: rest =>
    refChar1 c && decide (1 ≤ rest.length) && decide (rest.length ≤ 127) && rest.all refChar2

/-- Lowercase-hex character class `[a-f0-9]` of `digestRegex`. -/
def isHexLower (c : Char) : Bool :=
  ('a'.toNat ≤ c.toNat && c.toNat ≤ 'f'.toNat) || isDigitCh c

/-- Full-match of `digestRegex`: literal `sha256:` then exactly 64 lowercase
hex characters. -/
def digestOK (s : Str) : Bool :=
  decide (s.take 7 = "sha256:".data) && decide ((s.drop 7).length = 64) && (s.drop 7).all isHexLower

/-! ## parseName (src/main.go lines 752-772)

Strips `/v2/`, counts slashes; 0 or 1 slash is an error (the caller turns it
into a 500 via `writeServerError`); exactly 2 slashes takes the first
component; more than 2 slashes joins all components before the first
endpoint keyword. -/

/-- The four endpoint keywords at which the component scan of `parseName`
stops. -/
def isEndpointKw (p : Str) : Bool :=
  decide (p = "blobs".data) || decide (p = "manifests".data) ||
  decide (p = "tags".data) || decide (p = "referrers".data)

/-- Embedding of Go `parseName(url)`; `Except Unit` stands for the
`(string, error)` return pair. -/
def parseName (url : Str) : Except Unit Str :=
  if countSlash (dropPre "/v2/".data url) ≤ 1 then
    .error ()
  else if countSlash (dropPre "/v2/".data url) = 2 then
    .ok ((splitOnSlash (dropPre "/v2/".data url)).headD [])
  else
    .ok (joinSlash ((splitOnSlash (dropPre "/v2/".data url)).takeWhile (fun p => !(isEndpointKw p))))

/-! ## Handler name validation (src/main.go lines 65-73)

`parseName` errors are passed to `writeServerError` (HTTP 500); a parsed name
failing `nameRegex` produces the OCI error `NAME_INVALID` with status 400. -/

inductive ValOutcome where
  | okName (name : Str)
  | srvErr
  | nameInvalid
deriving DecidableEq

/-- The name-validation head of the `/v2/` handler: outcome of lines 65-73 of
src/main.go before any endpoint arm runs. -/
def handlerVal (uri : Str) : ValOutcome :=
  match parseName uri with
  | .error _ => .srvErr
  | .ok n => if nameOK n then .okName n else .nameInvalid

/-- HTTP status written by the validation head (`none` = fall through to the
endpoint arms). -/
def valStatus : ValOutcome → Option Nat
  | .okName _ => none
  | .srvErr => some 500
  | .nameInvalid => some 400

/-! ## SHA-256 (Go `crypto/sha256`, used by `getDigest` in src/main.go)

A direct executable implementation over byte lists; 32-bit words are `Nat`
values reduced mod 2^32. -/

def w32 (n : Nat) : Nat := n % 4294967296

def rotr32 (n x : Nat) : Nat := w32 ((x >>> n) ||| (x <<< (32 - n)))

def bigSigma0 (x : Nat) : Nat := rotr32 2 x ^^^ rotr32 13 x ^^^ rotr32 22 x

def bigSigma1 (x : Nat) : Nat := rotr32 6 x ^^^ rotr32 11 x ^^^ rotr32 25 x

def smallSigma0 (x : Nat) : Nat := rotr32 7 x ^^^ rotr32 18 x ^^^ (x >>> 3)

def smallSigma1 (x : Nat) : Nat := rotr32 17 x ^^^ rotr32 19 x ^^^ (x >>> 10)

def chF (x y z : Nat) : Nat := (x &&& y) ^^^ ((4294967295 - x) &&& z)

def majF (x y z : Nat) : Nat := (x &&& y) ^^^ (x &&& z) ^^^ (y &&& z)

/-- The 64 SHA-256 round constants (FIPS 180-4), in decimal. -/
def k256 : List Nat :=
  [1116352408, 1899447441, 3049323471, 3921009573, 961987163, 1508970993,
   2453635748, 2870763221, 3624381080, 310598401, 607225278, 1426881987,
   1925078388, 2162078206, 2614888103, 3248222580, 3835390401, 4022224774,
   264347078, 604807628, 770255983, 1249150122, 1555081692, 1996064986,
   2554220882, 2821834349, 2952996808, 3210313671, 3336571891, 3584528711,
   113926993, 338241895, 666307205, 773529912, 1294757372, 1396182291,
   1695183700, 1986661051, 2177026350, 2456956037, 2730485921, 2820302411,
   3259730800, 3345764771, 3516065817, 3600352804, 4094571909, 275423344,
   430227734, 506948616, 659060556, 883997877, 958139571, 1322822218,
   1537002063, 1747873779, 1955562222, 2024104815, 2227730452, 2361852424,
   2428436474, 2756734187, 3204031479, 3329325298]

/-- The initial SHA-256 hash state (FIPS 180-4), in decimal. -/
def h256 : List Nat :=
  [1779033703, 3144134277, 1013904242, 2773480762,
   1359893119, 2600822924, 528734635, 1541459225]

/-- Big-endian 8-byte encoding of the bit length, for the padding block. -/
def be8 (n : Nat) : Bytes :=
  [n >>> 56 % 256, n >>> 48 % 256, n >>> 40 % 256, n >>> 32 % 256,
   n >>> 24 % 256, n >>> 16 % 256, n >>> 8 % 256, n % 256]

/-- Big-endian 4-byte encoding of one 32-bit word. -/
def be4 (w : Nat) : Bytes :=
  [w >>> 24 % 256, w >>> 16 % 256, w >>> 8 % 256, w % 256]

/-- SHA-256 padding: `0x80`, zeros to 56 mod 64, then the 64-bit bit length. -/
def padMsg (msg : Bytes) : Bytes :=
  msg ++ 128 :: List.replicate ((119 - msg.length % 64) % 64) 0 ++ be8 (msg.length * 8)

/-- Packs bytes into big-endian 32-bit words, 4 bytes per word. -/
def toWords : Bytes → List Nat
  | a :: b :: c :: d :: rest => (a * 16777216 + b * 65536 + c * 256 + d) :: toWords rest
  | _ => []

/-- Extends the 16-word block to the 64-entry message schedule; `fuel` is the
number of remaining entries to append (48 for SHA-256). -/
def extendSched : Nat → List Nat → List Nat
  | 0, ws => ws
  | fuel + 1, ws =>
    extendSched fuel (ws ++ [w32 (smallSigma1 (ws.getD (ws.length - 2) 0) +
      ws.getD (ws.length - 7) 0 + smallSigma0 (ws.getD (ws.length - 15) 0) +
      ws.getD (ws.length - 16) 0)])

/-- The 64 compression rounds, one per `(k, w)` pair. -/
def rounds : List (Nat × Nat) → Nat × Nat × Nat × Nat × Nat × Nat × Nat × Nat →
    Nat × Nat × Nat × Nat × Nat × Nat × Nat × Nat
  | [], st => st
  | (k, w) :: rest, (a, b, c, d, e, f, g, h) =>
    rounds rest
      (w32 (w32 (h + bigSigma1 e + chF e f g + k + w) + w32 (bigSigma0 a + majF a b c)),
       a, b, c,
       w32 (d + w32 (h + bigSigma1 e + chF e f g + k + w)),
       e, f, g)

/-- Processes one 64-byte block, updating the 8-word hash state. -/
def stepBlock (hs : List Nat) (block : Bytes) : List Nat :=
  let st := rounds (k256.zip (extendSched 48 (toWords block)))
    (hs.getD 0 0, hs.getD 1 0, hs.getD 2 0, hs.getD 3 0,
     hs.getD 4 0, hs.getD 5 0, hs.getD 6 0, hs.getD 7 0)
  [w32 (hs.getD 0 0 + st.1), w32 (hs.getD 1 0 + st.2.1),
   w32 (hs.getD 2 0 + st.2.2.1), w32 (hs.getD 3 0 + st.2.2.2.1),
   w32 (hs.getD 4 0 + st.2.2.2.2.1), w32 (hs.getD 5 0 + st.2.2.2.2.2.1),
   w32 (hs.getD 6 0 + st.2.2.2.2.2.2.1), w32 (hs.getD 7 0 + st.2.2.2.2.2.2.2)]

/-- Splits into 64-byte chunks; the fuel argument (any bound of the number of
chunks, we pass the full length) keeps the recursion structural. -/
def chunks64 : Nat → Bytes → List Bytes
  | 0, _ => []
  | _ + 1, [] => []
  | fuel + 1, c :: rest => (c :: rest).take 64 :: chunks64 fuel ((c :: rest).drop 64)

def wordsToBytes : List Nat → Bytes
  | [] => []
  | w :: ws => be4 w ++ wordsToBytes ws

/-- SHA-256 digest (32 bytes) of a byte list, as in Go `sha256.Sum256`. -/
def sha256 (msg : Bytes) : Bytes :=
  wordsToBytes ((chunks64 (padMsg msg).length (padMsg msg)).foldl stepBlock h256)

/-- Lowercase hex digit characters. -/
def hexDig (n : Nat) : Char :=
  "0123456789abcdef".data.getD n '0'

def byteHex (b : Nat) : Str := [hexDig (b / 16), hexDig (b % 16)]

def bytesHex : Bytes → Str
  | [] => []
  | b :: bs => byteHex b ++ bytesHex bs

/-- Embedding of `getDigest` (src/main.go lines 823-826):
`fmt.Sprintf("sha256:%x", sha256.Sum256(b))`. -/
def getDigest (b : Bytes) : Str :=
  "sha256:".data ++ bytesHex (sha256 b)

/-! ## Storage model

One repository `<root>/<name>/` on disk, as laid out by src/main.go:

* `blobsDir` — whether the directory `<name>/_blobs` exists (the code creates
  it only via `os.MkdirAll` in the monolithic-PUT and mount paths);
* `blobs`   — the files inside `<name>/_blobs` (finalized blobs named by
  digest and in-flight session files named by UUID), keyed by filename;
* `tags`    — the top-level directories of `<name>` other than `_blobs`.
  `some m` means the directory holds a `manifest.json` with bytes `m`;
  `none` means the directory has no `manifest.json` at its top level (such
  directories are reachable because the manifest-PUT arm never validates its
  reference, so a reference containing `/` creates nested directories whose
  first component has no manifest file).

`os.ReadDir` returns entries sorted by filename; the embeddings of `getTags`
and `findManifest` therefore sort before iterating. -/

structure Repo where
  blobsDir : Bool
  blobs : List (Str × Bytes)
  tags : List (Str × Option Bytes)
deriving DecidableEq

/-- Association-list lookup (first match), as a file lookup by name. -/
def lookupStr {α : Type} : List (Str × α) → Str → Option α
  | [], _ => none
  | (k', v) :: rest, k => if k' = k then some v else lookupStr rest k

/-- Writing file `k` with content `v`: replaces any existing entry.  Order is
irrelevant because every directory iteration in the model sorts first. -/
def setPair {α : Type} (l : List (Str × α)) (k : Str) (v : α) : List (Str × α) :=
  l.filter (fun e => if e.1 = k then false else true) ++ [(k, v)]

/-- Byte-wise (ASCII) string order, as used by Go for `os.ReadDir` sorting and
`slices.Sort` on `[]string`. -/
def leStr : Str → Str → Bool
  | [], _ => true
  | _ :: _, [] => false
  | a :: as, b :: bs =>
    decide (a.toNat < b.toNat) || (decide (a = b) && leStr as bs)

def insLe {α : Type} (le : α → α → Bool) (x : α) : List α → List α
  | [] => [x]
  | y :: ys => if le x y then x :: y :: ys else y :: insLe le x ys

/-- Insertion sort; duplicates keep their relative order, which is irrelevant
here since directory names are unique. -/
def sortLe {α : Type} (le : α → α → Bool) : List α → List α
  | [] => []
  | x :: xs => insLe le x (sortLe le xs)

def pairLe {α : Type} (a b : Str × α) : Bool := leStr a.1 b.1

/-- `fileExists(<name>/_blobs/<fname>)` (src/main.go lines 782-792): true iff
the `_blobs` directory exists and holds the file. -/
def blobExists (r : Repo) (fname : Str) : Bool :=
  r.blobsDir && (lookupStr r.blobs fname).isSome

/-! ## getTags and the tags/list pagination arm (end-8b)

`getTags` (lines 568-581) lists the directory entries of `<name>` skipping
`_blobs`; `os.ReadDir` yields them in sorted order.  The end-8b arm
(lines 371-418) sorts, then applies `last` via `slices.Index` and `tags[i:]`,
then `n` via `strconv.Atoi` and `tags[:i]`.

`paginate` returns `none` exactly when the Go code panics: `slices.Index`
returning `-1` makes `tags[-1:]` panic; a non-numeric `n` hits an explicit
`panic(err)`; a negative or too-large `n` makes `tags[:n]` panic (slicing
beyond the length panics whenever it exceeds the capacity, which it does for
the concrete failing inputs used below, e.g. two appended tags have
capacity 2). -/

def getTags (r : Repo) : List Str :=
  ((sortLe pairLe r.tags).map Prod.fst).filter (fun d => if d = "_blobs".data then false else true)

/-- Go `slices.Index` (first index of `x`), with `none` for `-1`. -/
def idxOf : List Str → Str → Option Nat
  | [], _ => none
  | t :: ts, x => if t = x then some 0 else (idxOf ts x).map (· + 1)

/-- Digit-run value for `strconv.Atoi`: `none` unless non-empty and all
decimal digits. -/
def digitsVal : Str → Option Nat
  | [] => none
  | ds =>
    if ds.all isDigitCh then some (ds.foldl (fun acc c => acc * 10 + (c.toNat - 48)) 0) else none

/-- Go `strconv.Atoi`: optional sign followed by at least one digit. -/
def atoiGo (s : Str) : Option Int :=
  match s with
  | [] => none
  | '-' :: ds => (digitsVal ds).map (fun n => -(n : Int))
  | '+' :: ds => (digitsVal ds).map (fun n => (n : Int))
  | ds => (digitsVal ds).map (fun n => (n : Int))

/-- The pagination core of end-8b, applied to the tag list of the repository;
the arm only runs when the query parameter `last` is non-empty (end-8a catches
`last == ""` first and returns the unpaginated list). -/
def paginate (tagsIn : List Str) (nQ lastQ : Str) : Option (List Str) :=
  let tags := sortLe leStr tagsIn
  match (if lastQ = [] then some tags
         else match idxOf tags lastQ with
              | some i => some (tags.drop i)
              | none => none) with
  | none => none
  | some t1 =>
    if nQ = [] then some t1
    else match atoiGo nQ with
      | none => none
      | some k => if k < 0 then none
                  else if t1.length < k.toNat then none
                  else some (t1.take k.toNat)

/-! ## Manifest store: end-3 (GET), end-7 (PUT), end-9 (DELETE), findManifest -/

/-- `findManifest` (src/main.go lines 794-821) over the sorted directory list:
skips `_blobs`, errors as soon as a directory has no `manifest.json`
(`os.Open` fails), returns the first manifest whose recomputed digest
matches. -/
def findManifestList : List (Str × Option Bytes) → Str → Except Unit (Option Bytes)
  | [], _ => .ok none
  | (d, mo) :: rest, dig =>
    if d = "_blobs".data then findManifestList rest dig
    else match mo with
      | none => .error ()
      | some m => if getDigest m = dig then .ok (some m) else findManifestList rest dig

/-- GET `/v2/<name>/manifests/<lastPart>` (end-3, lines 116-164).  By
reference it reads `<name>/<ref>/manifest.json`; by digest it scans via
`findManifest` (a scan error yields a bare 404, an empty scan yields
`MANIFEST_UNKNOWN` 404). -/
def manifestGet (r : Repo) (lastPart : Str) : Nat × Option Bytes :=
  if !(refOK lastPart || digestOK lastPart) then (404, none)
  else if refOK lastPart then
    match lookupStr r.tags lastPart with
    | some (some m) => (200, some m)
    | _ => (404, none)
  else
    match findManifestList (sortLe pairLe r.tags) lastPart with
    | .error _ => (404, none)
    | .ok none => (404, none)
    | .ok (some m) => (200, some m)

/-- PUT `/v2/<name>/manifests/<ref>` (end-7, lines 312-342): `MkdirAll` on
`<name>/<ref>`, body written verbatim to `manifest.json`, digest of the
written file returned in the `Location` header with status 201.  The
reference is never validated (the check is commented out in the source), so
the three cases mirror the path semantics of `path.Join(rootDir, name, ref)`:
a plain reference creates/overwrites a tag directory; the reference
`"_blobs"` drops `manifest.json` into the blob directory; a reference
containing `/` nests, leaving its first component as a top-level directory
without a top-level `manifest.json` (its nested content is invisible to every
read path of the server). -/
def manifestPut (r : Repo) (ref : Str) (body : Bytes) : Nat × Str × Repo :=
  if ref = "_blobs".data then
    (201, getDigest body, ⟨true, setPair r.blobs "manifest.json".data body, r.tags⟩)
  else if containsStr ref "/".data then
    (201, getDigest body,
     ⟨r.blobsDir, r.blobs,
      if (lookupStr r.tags ((splitOnSlash ref).headD [])).isSome then r.tags
      else r.tags ++ [((splitOnSlash ref).headD [], none)]⟩)
  else
    (201, getDigest body, ⟨r.blobsDir, r.blobs, setPair r.tags ref (some body)⟩)

/-- DELETE `/v2/<name>/manifests/<lastPart>` (end-9, lines 420-441): rejects
with `MANIFEST_INVALID` 404 when the last path component matches neither the
reference nor the digest grammar; otherwise `os.RemoveAll` on
`<name>/<lastPart>` — which succeeds (and returns nil) even when the path
does not exist — and 202.  There is no digest scan: for a digest argument the
removed path is the directory literally named by the digest. -/
def manifestDelete (r : Repo) (lastPart : Str) : Nat × Repo :=
  if !(refOK lastPart || digestOK lastPart) then (404, r)
  else if lastPart = "_blobs".data then (202, ⟨false, [], r.tags⟩)
  else (202, ⟨r.blobsDir, r.blobs, r.tags.filter (fun e => if e.1 = lastPart then false else true)⟩)

/-! ## Blob store: end-2 (GET), end-5 (PATCH), end-6 (PUT finalize) -/

/-- GET `/v2/<name>/blobs/<reqDigest>` (end-2, lines 80-114). -/
def blobGet (r : Repo) (reqDigest : Str) : Nat × Option Bytes :=
  if !digestOK reqDigest then (404, none)
  else if blobExists r reqDigest then (200, lookupStr r.blobs reqDigest)
  else (404, none)

/-- First PATCH chunk, `Content-Range` absent (end-5 lines 198-200 calling
`createFile`, lines 664-682): `os.OpenFile(..., O_CREATE, ...)` then
`os.Truncate(destFile, 0)`.  The request body is never read — the write is
commented out in the source — so the session file ends up empty regardless of
`body`.  When `_blobs` does not exist the open fails and `writeServerError`
makes 500 the effective status (the later `WriteHeader(202)` is ignored by
net/http once a status is written). -/
def patchFirst (r : Repo) (sess : Str) (_body : Bytes) : Nat × Repo :=
  if r.blobsDir then (202, ⟨r.blobsDir, setPair r.blobs sess [], r.tags⟩)
  else (500, r)

/-- Subsequent PATCH chunk with `Content-Range: s-e` (end-5, lines 201-262).
`i` is the `Content-Length` value.  The open with `O_CREATE` first creates
the session file (empty) when it is missing; a first `Read` into an `s`-byte
buffer yields fewer than `s` bytes exactly when the file is shorter than `s`
(416); a `ReadAt` of `i` bytes at offset `s` succeeds exactly when
`s + i ≤ len(file)` (416, duplicate chunk); otherwise a single `Body.Read`
fills at most `i` bytes of a zeroed `i`-byte buffer, all of which `WriteAt`
places at offset `s`. -/
def patchChunk (r : Repo) (sess : Str) (s i : Nat) (body : Bytes) : Nat × Repo :=
  if r.blobsDir then
    let file := (lookupStr r.blobs sess).getD []
    let r1 : Repo :=
      ⟨r.blobsDir, if (lookupStr r.blobs sess).isSome then r.blobs else setPair r.blobs sess [], r.tags⟩
    if file.length < s then (416, r1)
    else if s + i ≤ file.length then (416, r1)
    else
      (202, ⟨r1.blobsDir,
             setPair r1.blobs sess
               (file.take s ++ (body.take i ++ List.replicate (i - min i body.length) 0) ++
                file.drop (s + i)),
             r1.tags⟩)
  else (500, r)

/-- PUT `/v2/<name>/blobs/uploads/<sess>?digest=<digestQ>` (end-6,
lines 267-310).  When the session file exists (chunked finish) the code reads
one body byte for logging and renames the session file to the digest name
**without computing any digest**, answering 201; `digest=""` makes the rename
fail silently (target is the `_blobs` directory itself) and still answers
201.  When no session file exists (monolithic PUT) it `MkdirAll`s `_blobs`,
streams the body to `_blobs/<digestQ>` and only then validates: on digest
mismatch `http.Error(..., 400)` is written first (making 400 the effective
status) but the mis-named blob file is left in place and the later
`WriteHeader(201)` is a no-op. -/
def putFinalize (r : Repo) (sess digestQ : Str) (body : Bytes) : Nat × Repo :=
  if blobExists r sess then
    if digestQ = [] then (201, r)
    else
      (201, ⟨r.blobsDir,
             r.blobs.filter (fun e => if e.1 = sess then false else if e.1 = digestQ then false else true)
               ++ [(digestQ, (lookupStr r.blobs sess).getD [])],
             r.tags⟩)
  else
    if digestQ = [] then (500, ⟨true, r.blobs, r.tags⟩)
    else
      (if getDigest body = digestQ then 201 else 400,
       ⟨true, setPair r.blobs digestQ body, r.tags⟩)

/-! ## The POST arms of the dispatcher (end-4a, end-4b, end-11)

The `/v2/` handler (src/main.go lines 55-564) is a chain of independent `if`
blocks.  For a POST request only end-4a, end-4b and end-11 can fire (all
other arms test a different method), in source order, and an arm only stops
the chain when it executes `return`: end-4a never returns, every path of
end-4b returns, every path of end-11 returns.

`WEv` records each write made to the `http.ResponseWriter`; net/http keeps
the **first** written status and ignores later `WriteHeader` calls, but every
body write is appended, so a fall-through can stack writes from several arms
onto one response. -/

inductive WEv where
  | status (code : Nat)
  | header (key val : Str)
  | bodyTxt (txt : Str)
deriving DecidableEq

def countStatus : List WEv → Nat
  | [] => 0
  | WEv.status _ :: rest => 1 + countStatus rest
  | _ :: rest => countStatus rest

def countBody : List WEv → Nat
  | [] => 0
  | WEv.bodyTxt _ :: rest => 1 + countBody rest
  | _ :: rest => countBody rest

def formVal (form : List (Str × Str)) (k : Str) : Str :=
  (lookupStr form k).getD []

def getRepo (store : List (Str × Repo)) (n : Str) : Repo :=
  (lookupStr store n).getD ⟨false, [], []⟩

/-- The dispatcher chain for a POST request that passed name validation.
`store` maps repository names to their state; `uuid1`/`uuid2` stand for the
two independent `uuid.Generate()` calls of end-4a and end-11.  Returns the
write-event trace and the updated store.  (`writeServerError` also writes an
`Unexpected error encountered: ...` body whose tail is the runtime error
string; the trace keeps only its fixed part.) -/
def dispatchPost (store : List (Str × Repo)) (name uri : Str)
    (form : List (Str × Str)) (uuid1 uuid2 : Str) (reqBody : Bytes) :
    List WEv × List (Str × Repo) :=
  let ep := dropPre ("/v2/".data ++ name) uri
  -- end-4a (lines 166-170): no return, falls through
  let w4a : List WEv :=
    if hasSuffixStr ep "/blobs/uploads/".data then
      [WEv.header "Location".data (uri ++ uuid1), WEv.status 202]
    else []
  -- end-4b (lines 172-181): fires when the mount parameter is empty
  if containsStr ep "/blobs/uploads/".data && decide (formVal form "mount".data = []) then
    match formVal form "digest".data with
    | [] => (w4a ++ [WEv.status 400, WEv.bodyTxt "Digest missing".data], store)
    | d =>
      let r := getRepo store name
      if r.blobsDir then
        let r2 : Repo := ⟨true, setPair r.blobs d reqBody, r.tags⟩
        if getDigest reqBody = d then
          (w4a ++ [WEv.header "Location".data ("/v2/".data ++ name ++ "/blobs/".data ++ d),
                   WEv.status 201],
           setPair store name r2)
        else
          (w4a ++ [WEv.status 400, WEv.bodyTxt "blob did not match length or digest".data,
                   WEv.header "Location".data ("/v2/".data ++ name ++ "/blobs/".data ++ d),
                   WEv.status 201],
           setPair store name r2)
      else
        -- no _blobs directory (end-4b never creates it): open fails, 500 first
        (w4a ++ [WEv.status 500, WEv.bodyTxt "Unexpected error encountered".data,
                 WEv.status 400, WEv.bodyTxt "blob did not match length or digest".data,
                 WEv.header "Location".data ("/v2/".data ++ name ++ "/blobs/".data ++ d),
                 WEv.status 201],
         store)
  -- end-5 .. end-10 test non-POST methods; end-11 (lines 470-508):
  else if containsStr ep "/blobs/uploads/".data then
    let m := formVal form "mount".data
    let f := formVal form "from".data
    if !blobExists (getRepo store f) m || decide (f = []) then
      (w4a ++ [WEv.header "Location".data
                 ("/v2/".data ++ name ++ "/blobs/uploads/".data ++ uuid2),
               WEv.status 202], store)
    else
      let dst := getRepo store name
      if blobExists dst m then
        -- os.Link fails because the target exists
        (w4a ++ [WEv.status 500, WEv.bodyTxt "Unexpected error encountered".data], store)
      else
        (w4a ++ [WEv.header "Location".data ("/v2/".data ++ name ++ "/blobs/".data ++ m),
                 WEv.status 201],
         setPair store name
           ⟨true, setPair dst.blobs m ((lookupStr (getRepo store f).blobs m).getD []), dst.tags⟩)
  else (w4a, store)

/-! ## Helper lemmas: Go string operations -/

theorem splitOnSlash_ne_nil (s : Str) : splitOnSlash s ≠ [] := by
  cases s with
  | nil => simp [splitOnSlash]
  | cons c rest => by_cases h : c = '/' <;> simp [splitOnSlash, h]

theorem splitOnSlash_cons_exists (s : Str) :
    ∃ h0 t0, splitOnSlash s = h0 :: t0 := by
  cases h : splitOnSlash s with
  | nil => exact absurd h (splitOnSlash_ne_nil s)
  | cons a b => exact ⟨a, b, rfl⟩

theorem splitOnSlash_append (xs ys : Str) :
    splitOnSlash (xs ++ '/' :: ys) = splitOnSlash xs ++ splitOnSlash ys := by
  induction xs with
  | nil => simp [splitOnSlash]
  | cons c rest ih =>
    obtain ⟨h0, t0, hsr⟩ := splitOnSlash_cons_exists rest
    by_cases h : c = '/'
    · subst h; simp [splitOnSlash, ih]
    · show splitOnSlash (c :: (rest ++ '/' :: ys)) = _
      simp [splitOnSlash, h, ih, hsr]

theorem joinSlash_splitOnSlash (s : Str) : joinSlash (splitOnSlash s) = s := by
  induction s with
  | nil => rfl
  | cons c rest ih =>
    obtain ⟨h0, t0, hsr⟩ := splitOnSlash_cons_exists rest
    rw [hsr] at ih
    by_cases h : c = '/'
    · subst h
      show joinSlash (splitOnSlash ('/' :: rest)) = '/' :: rest
      rw [show splitOnSlash ('/' :: rest) = [] :: splitOnSlash rest from by simp [splitOnSlash], hsr]
      show [] ++ '/' :: joinSlash (h0 :: t0) = '/' :: rest
      rw [ih]; rfl
    · show joinSlash (splitOnSlash (c :: rest)) = c :: rest
      rw [show splitOnSlash (c :: rest) =
            (c :: (splitOnSlash rest).headD []) :: (splitOnSlash rest).tail from by
          simp [splitOnSlash, h], hsr]
      cases t0 with
      | nil =>
        show c :: h0 = c :: rest
        rw [show joinSlash [h0] = h0 from rfl] at ih
        rw [ih]
      | cons a b =>
        show (c :: h0) ++ '/' :: joinSlash (a :: b) = c :: rest
        rw [show joinSlash (h0 :: a :: b) = h0 ++ '/' :: joinSlash (a :: b) from rfl] at ih
        rw [← ih]; rfl

theorem countSlash_append (xs ys : Str) :
    countSlash (xs ++ ys) = countSlash xs + countSlash ys := by
  induction xs with
  | nil => simp [countSlash]
  | cons c rest ih => simp [countSlash, ih]; omega

theorem hasPre_append (p t : Str) : hasPre p (p ++ t) = true := by
  induction p with
  | nil => rfl
  | cons a as ih => simp [hasPre, ih]

theorem dropPre_exact (p t : Str) : dropPre p (p ++ t) = t := by
  simp [dropPre, hasPre_append]

theorem takeWhile_append_all (f : Str → Bool) (l1 l2 : List Str)
    (h : ∀ p ∈ l1, f p = true) :
    (l1 ++ l2).takeWhile f = l1 ++ l2.takeWhile f := by
  induction l1 with
  | nil => simp
  | cons a as ih =>
    have ha := h a (by simp)
    simp [List.takeWhile_cons, ha, ih (fun p hp => h p (by simp [hp]))]

theorem idxOf_drop (l : List Str) (x : Str) (i : Nat) (h : idxOf l x = some i) :
    (l.drop i).head? = some x := by
  induction l generalizing i with
  | nil => simp [idxOf] at h
  | cons t ts ih =>
    by_cases ht : t = x
    · subst ht
      simp [idxOf] at h
      subst h
      simp
    · simp [idxOf, ht] at h
      obtain ⟨j, hj, hji⟩ := h
      subst hji
      simpa using ih j hj

theorem head?_take (l : List Str) (k : Nat) (hk : 1 ≤ k) : (l.take k).head? = l.head? := by
  cases l <;> cases k <;> simp_all [List.take]

theorem mem_insLe {α : Type} (le : α → α → Bool) (x y : α) (l : List α) :
    y ∈ insLe le x l ↔ y = x ∨ y ∈ l := by
  induction l with
  | nil => simp [insLe]
  | cons a as ih =>
    by_cases h : le x a
    · simp [insLe, h, ih]
    · simp [insLe, h, ih]
      tauto

theorem mem_sortLe {α : Type} (le : α → α → Bool) (y : α) (l : List α) :
    y ∈ sortLe le l ↔ y ∈ l := by
  induction l with
  | nil => simp [sortLe]
  | cons a as ih => simp [sortLe, mem_insLe, ih]

/-! ## Helper lemmas: shape of `getDigest` output -/

theorem stepBlock_length (hs : List Nat) (b : Bytes) : (stepBlock hs b).length = 8 := rfl

theorem foldl_stepBlock_length (blocks : List Bytes) (hs : List Nat) (h : hs.length = 8) :
    (blocks.foldl stepBlock hs).length = 8 := by
  induction blocks generalizing hs with
  | nil => simpa using h
  | cons b bs ih => exact ih _ (stepBlock_length hs b)

theorem wordsToBytes_length (ws : List Nat) : (wordsToBytes ws).length = 4 * ws.length := by
  induction ws with
  | nil => simp [wordsToBytes]
  | cons w ws ih => simp [wordsToBytes, be4, ih]; ring

theorem be4_lt (w : Nat) : ∀ x ∈ be4 w, x < 256 := by
  intro x hx
  simp [be4] at hx
  rcases hx with h | h | h | h <;> subst h <;> exact Nat.mod_lt _ (by norm_num)

theorem wordsToBytes_lt (ws : List Nat) : ∀ x ∈ wordsToBytes ws, x < 256 := by
  induction ws with
  | nil => simp [wordsToBytes]
  | cons w ws ih =>
    intro x hx
    simp only [wordsToBytes, List.mem_append] at hx
    rcases hx with h | h
    · exact be4_lt w x h
    · exact ih x h

theorem sha256_length (msg : Bytes) : (sha256 msg).length = 32 := by
  rw [sha256, wordsToBytes_length, foldl_stepBlock_length _ h256 rfl]

theorem sha256_lt (msg : Bytes) : ∀ x ∈ sha256 msg, x < 256 := by
  intro x hx
  exact wordsToBytes_lt _ x hx

theorem bytesHex_length (bs : Bytes) : (bytesHex bs).length = 2 * bs.length := by
  induction bs with
  | nil => rfl
  | cons b bs ih => simp [bytesHex, byteHex, ih]; ring

theorem hexDig_hex (n : Nat) (h : n < 16) : isHexLower (hexDig n) = true := by
  interval_cases n <;> rfl

theorem bytesHex_hex (bs : Bytes) (h : ∀ x ∈ bs, x < 256) :
    ∀ c ∈ bytesHex bs, isHexLower c = true := by
  induction bs with
  | nil => simp [bytesHex]
  | cons b bs ih =>
    intro c hc
    have hb : b < 256 := h b (by simp)
    simp only [bytesHex, byteHex, List.cons_append, List.nil_append, List.mem_cons] at hc
    rcases hc with h1 | h1 | h1
    · subst h1; exact hexDig_hex _ (by omega)
    · subst h1; exact hexDig_hex _ (by omega)
    · exact ih (fun x hx => h x (by simp [hx])) c h1

theorem digestOK_getDigest (b : Bytes) : digestOK (getDigest b) = true := by
  have hlen : (bytesHex (sha256 b)).length = 64 := by
    rw [bytesHex_length, sha256_length]
  have h7 : ("sha256:".data).length = 7 := rfl
  have htake : (getDigest b).take 7 = "sha256:".data := by
    rw [getDigest, ← h7, List.take_left]
  have hdrop : (getDigest b).drop 7 = bytesHex (sha256 b) := by
    rw [getDigest, ← h7, List.drop_left]
  simp only [digestOK, htake, hdrop, hlen, decide_True, Bool.true_and, List.all_eq_true]
  intro c hc
  exact bytesHex_hex _ (sha256_lt b) c hc

theorem refOK_getDigest (b : Bytes) : refOK (getDigest b) = false := by
  have h : getDigest b = 's' :: ("ha256:".data ++ bytesHex (sha256 b)) := rfl
  have hall : (("ha256:".data ++ bytesHex (sha256 b)).all refChar2) = false := by
    cases hc : ("ha256:".data ++ bytesHex (sha256 b)).all refChar2 with
    | false => rfl
    | true =>
      have := (List.all_eq_true.mp hc) ':' (List.mem_append_left _ (by decide))
      exact absurd this (by decide)
  rw [h]
  simp only [refOK, hall, Bool.and_false]

theorem containsStr_slash_false (l : Str) (h : ∀ x ∈ l, x ≠ '/') :
    containsStr l "/".data = false := by
  induction l with
  | nil => rfl
  | cons c rest ih =>
    have hc : c ≠ '/' := h c (by simp)
    simp [containsStr, hasPre, Ne.symm hc, ih (fun x hx => h x (by simp [hx]))]

theorem refOK_slash (s : Str) (h : refOK s = true) : containsStr s "/".data = false := by
  cases s with
  | nil => simp [refOK] at h
  | cons c rest =>
    simp only [refOK, Bool.and_eq_true, List.all_eq_true] at h
    obtain ⟨⟨⟨h1, _⟩, _⟩, h4⟩ := h
    apply containsStr_slash_false
    intro x hx he
    rcases List.mem_cons.mp hx with h5 | h5
    · rw [← h5, he] at h1; exact absurd h1 (by decide)
    · have := h4 x h5; rw [he] at this; exact absurd this (by decide)

/-! ## Helper lemma: a successful manifest digest scan -/

theorem findManifestList_finds (L : List (Str × Option Bytes)) (D : Str) (M : Bytes)
    (hall : ∀ e ∈ L, (e.2).isSome = true)
    (hcoll : ∀ e ∈ L, ∀ m, e.2 = some m → getDigest m = D → m = M)
    (hD : getDigest M = D)
    (hex : ∃ e, e ∈ L ∧ e.1 ≠ "_blobs".data ∧ e.2 = some M) :
    findManifestList L D = Except.ok (some M) := by
  induction L with
  | nil => obtain ⟨e, he, _⟩ := hex; simp at he
  | cons a rest ih =>
    obtain ⟨e, he, hne, hsome⟩ := hex
    by_cases hb : a.1 = "_blobs".data
    · rw [show findManifestList (a :: rest) D = findManifestList rest D from by
        obtain ⟨a1, a2⟩ := a; simp only at hb; simp [findManifestList, hb]]
      refine ih (fun x hx => hall x (by simp [hx])) (fun x hx => hcoll x (by simp [hx])) ?_
      refine ⟨e, ?_, hne, hsome⟩
      rcases List.mem_cons.mp he with h5 | h5
      · exact absurd (h5 ▸ hb) hne
      · exact h5
    · have ha := hall a (by simp)
      obtain ⟨m, hm⟩ := Option.isSome_iff_exists.mp ha
      by_cases hd : getDigest m = D
      · have hmM : m = M := hcoll a (by simp) m hm hd
        obtain ⟨a1, a2⟩ := a
        simp only at hb hm
        subst hm
        subst hmM
        simp [findManifestList, hb, hd]
      · rw [show findManifestList (a :: rest) D = findManifestList rest D from by
          obtain ⟨a1, a2⟩ := a; simp only at hb hm; subst hm; simp [findManifestList, hb, hd]]
        refine ih (fun x hx => hall x (by simp [hx])) (fun x hx => hcoll x (by simp [hx])) ?_
        refine ⟨e, ?_, hne, hsome⟩
        rcases List.mem_cons.mp he with h5 | h5
        · subst h5
          rw [hsome] at hm
          have : m = M := by injection hm with h6; exact h6.symm
          subst this
          exact absurd hD hd
        · exact h5

/-! ## Claim theorems -/

/-- C1: the claim says the finalize of an upload (PUT on
`/blobs/uploads/<session>`) computes the session file's digest, renames only
on a match, and on a mismatch leaves the session file in place and reports
`DigestInvalid` without creating a file under the claimed digest name.  The
code does no such check: at the failing input below — a session file holding
the single byte `0x61` and a claimed digest of all zeros, a well-formed
digest that is not the digest of the content — `putFinalize` renames the
session file to the claimed digest name and answers 201, so `_blobs` now
holds a file named `sha256:00…0` whose content hashes to something else. -/
theorem c1_finalize_unverified :
    putFinalize ⟨true, [("sess".data, [97])], []⟩ "sess".data
        "sha256:0000000000000000000000000000000000000000000000000000000000000000".data [] =
      (201, ⟨true,
        [("sha256:0000000000000000000000000000000000000000000000000000000000000000".data, [97])],
        []⟩) ∧
    getDigest [97] ≠
      "sha256:0000000000000000000000000000000000000000000000000000000000000000".data ∧
    digestOK
      "sha256:0000000000000000000000000000000000000000000000000000000000000000".data = true :=
  ⟨by decide, by decide, by decide⟩

/-- C2: the claim says chunks B1..Bk uploaded via PATCH followed by PUT with
the digest of B1‖…‖Bk yield a blob with exactly that content.  In the code
the first PATCH (`createFile`) truncates the session file and never reads the
request body, so chunk B1 (`abc`) is dropped; the second PATCH
(`Content-Range: 3-5`, body `def`) then gets 416 because the session file is
empty; the PUT renames the empty session file to the digest name; the final
GET returns an empty blob instead of `abcdef`.  On a wholly fresh repository
(no `_blobs` directory yet — POST upload-init never creates it) the first
PATCH even fails with status 500. -/
theorem c2_chunked_flow_drops_data :
    (patchFirst ⟨true, [], []⟩ "s".data [97, 98, 99]).1 = 202 ∧
    (patchFirst ⟨true, [], []⟩ "s".data [97, 98, 99]).2.blobs = [("s".data, [])] ∧
    (patchChunk (patchFirst ⟨true, [], []⟩ "s".data [97, 98, 99]).2
        "s".data 3 3 [100, 101, 102]).1 = 416 ∧
    (putFinalize (patchChunk (patchFirst ⟨true, [], []⟩ "s".data [97, 98, 99]).2
        "s".data 3 3 [100, 101, 102]).2
      "s".data (getDigest [97, 98, 99, 100, 101, 102]) []).1 = 201 ∧
    blobGet (putFinalize (patchChunk (patchFirst ⟨true, [], []⟩ "s".data [97, 98, 99]).2
        "s".data 3 3 [100, 101, 102]).2
      "s".data (getDigest [97, 98, 99, 100, 101, 102]) []).2
      (getDigest [97, 98, 99, 100, 101, 102]) = (200, some []) ∧
    (patchFirst ⟨false, [], []⟩ "s".data [97, 98, 99]).1 = 500 ∧
    some ([] : Bytes) ≠ some [97, 98, 99, 100, 101, 102] :=
  ⟨by decide, by decide, by decide, by decide, by decide, by decide, by decide⟩

/-- C3 counterexample: the claim says that with stored tags a,b,c,d the query
`n=2&last=a` yields the tags b,c (`last` exclusive).  The code computes
`slices.Index` and slices `tags[i:]`, which keeps `last` itself, so the
result is a,b. -/
theorem c3_pagination_cex :
    paginate ["a".data, "b".data, "c".data, "d".data] "2".data "a".data =
      some ["a".data, "b".data] ∧
    ¬ (paginate ["a".data, "b".data, "c".data, "d".data] "2".data "a".data =
      some ["b".data, "c".data]) :=
  ⟨by decide, by decide⟩

/-- C3 amended: with `last` present in the sorted tag list at first index `i`
and a numeric `n = k` that is at most the number of remaining tags, end-8b
returns the `k`-element slice starting AT `last` (inclusive), so the first
returned tag is `last` itself. -/
theorem c3_pagination_inclusive (tagsIn : List Str) (nQ lastQ : Str) (k i : Nat)
    (h0 : lastQ ≠ [])
    (h1 : idxOf (sortLe leStr tagsIn) lastQ = some i)
    (h2 : atoiGo nQ = some (k : Int))
    (h3 : k ≤ (sortLe leStr tagsIn).length - i) :
    paginate tagsIn nQ lastQ = some (((sortLe leStr tagsIn).drop i).take k) ∧
    (1 ≤ k → (((sortLe leStr tagsIn).drop i).take k).head? = some lastQ) := by
  have hnQ : nQ ≠ [] := by
    intro h
    rw [h] at h2
    simp [atoiGo] at h2
  constructor
  · have hneg : ¬ ((k : Int) < 0) := by omega
    have hlen : ¬ ((sortLe leStr tagsIn).drop i).length < (k : Int).toNat := by
      simp only [List.length_drop, Int.toNat_natCast]
      omega
    simp [paginate, h0, h1, hnQ, h2, hneg, hlen]
    omega
  · intro hk
    rw [head?_take _ _ hk]
    exact idxOf_drop _ _ _ h1

/-- C3 amended, witness at tags b,a,d,c (sorted to a,b,c,d), `last=a`,
`n=2`. -/
theorem c3_pagination_inclusive_witness :
    idxOf (sortLe leStr ["b".data, "a".data, "d".data, "c".data]) "a".data = some 0 ∧
    paginate ["b".data, "a".data, "d".data, "c".data] "2".data "a".data =
      some (((sortLe leStr ["b".data, "a".data, "d".data, "c".data]).drop 0).take 2) :=
  ⟨by decide,
   (c3_pagination_inclusive ["b".data, "a".data, "d".data, "c".data] "2".data "a".data 2 0
     (by decide) (by decide) (by decide) (by decide)).1⟩

/-- C4 counterexample: the claim says DELETE of a manifest answers 404 when no
matching manifest exists.  On an empty repository, deleting the reference
`v1` still answers 202, because `os.RemoveAll` reports success on a missing
path. -/
theorem c4_delete_cex :
    manifestDelete ⟨false, [], []⟩ "v1".data = (202, ⟨false, [], []⟩) ∧
    (202 : Nat) ≠ 404 :=
  ⟨by decide, by decide⟩

/-- C4 amended: DELETE removes the directory literally named by the argument
(no digest scan) and answers 202 whenever the argument matches the reference
or digest grammar — also when no matching manifest exists; 404
(`MANIFEST_INVALID`) is produced exactly when the argument matches neither
grammar, leaving the repository unchanged. -/
theorem c4_delete_always202 (r : Repo) (lp : Str) :
    ((refOK lp || digestOK lp) = true → (manifestDelete r lp).1 = 202) ∧
    ((refOK lp || digestOK lp) = false → manifestDelete r lp = (404, r)) ∧
    ((refOK lp || digestOK lp) = true → lp ≠ "_blobs".data →
      (manifestDelete r lp).2.tags =
        r.tags.filter (fun e => if e.1 = lp then false else true)) := by
  refine ⟨?_, ?_, ?_⟩
  · intro h
    unfold manifestDelete
    rw [h]
    by_cases hb : lp = "_blobs".data <;> simp [hb]
  · intro h
    unfold manifestDelete
    rw [h]
    rfl
  · intro h hb
    unfold manifestDelete
    rw [h]
    simp [hb]

/-- C4 amended, witness: deleting the only tag of a repository answers 202
and removes it. -/
theorem c4_delete_always202_witness :
    (refOK "v9".data || digestOK "v9".data) = true ∧
    (manifestDelete ⟨true, [], [("v9".data, some [1])]⟩ "v9".data).1 = 202 :=
  ⟨by decide, (c4_delete_always202 ⟨true, [], [("v9".data, some [1])]⟩ "v9".data).1 (by decide)⟩

/-- C5: a PATCH with `Content-Range: s-e` on an existing upload session file
of content `f` answers 416 and leaves the state unchanged both when `s`
exceeds the current size and when the range `s ..= s + i` (with `i` the
Content-Length) already lies inside the file. -/
theorem c5_patch_range_416 (r : Repo) (sess : Str) (f : Bytes) (s i : Nat) (body : Bytes)
    (hdir : r.blobsDir = true)
    (hses : lookupStr r.blobs sess = some f)
    (hcond : f.length < s ∨ s + i ≤ f.length) :
    patchChunk r sess s i body = (416, r) := by
  obtain ⟨bd, bl, tg⟩ := r
  simp only at hdir hses
  subst hdir
  rcases hcond with h | h
  · simp [patchChunk, hses, h]
  · have h2 : ¬ (f.length < s) := by omega
    simp [patchChunk, hses, h, h2]

/-- C5 witness: session of size 3, `Content-Range: 5-6`. -/
theorem c5_patch_range_416_witness :
    lookupStr (Repo.mk true [("s".data, [1, 2, 3])] []).blobs "s".data = some [1, 2, 3] ∧
    patchChunk (Repo.mk true [("s".data, [1, 2, 3])] []) "s".data 5 2 [9, 9] =
      (416, Repo.mk true [("s".data, [1, 2, 3])] []) :=
  ⟨by decide,
   c5_patch_range_416 (Repo.mk true [("s".data, [1, 2, 3])] []) "s".data [1, 2, 3] 5 2 [9, 9]
     rfl (by decide) (Or.inl (by decide))⟩

/-- C6 counterexample: the claim says a URI whose repository name has fewer
than two components before the endpoint keyword is rejected with
`NAME_INVALID` (400) and that no validation failure produces 500.  The URI
`/v2/foo/blobs` (one component before `blobs`) makes `parseName` return an
error, which the handler passes to `writeServerError`: status 500. -/
theorem c6_validation_cex :
    valStatus (handlerVal "/v2/foo/blobs".data) = some 500 ∧
    some (500 : Nat) ≠ some 400 :=
  ⟨by decide, by decide⟩

/-- C6 amended: a request URI whose path after stripping `/v2/` contains at
most one slash is rejected by `parseName` with an error that the handler
turns into a generic 500 (`writeServerError`), not `NAME_INVALID`;
`NAME_INVALID` 400 is produced exactly when `parseName` succeeds but the
parsed name fails the name grammar.  Validation failures can therefore
produce 500. -/
theorem c6_validation_outcomes (uri : Str) :
    (countSlash (dropPre "/v2/".data uri) ≤ 1 → valStatus (handlerVal uri) = some 500) ∧
    (∀ n, parseName uri = .ok n → nameOK n = false → valStatus (handlerVal uri) = some 400) ∧
    (∀ n, parseName uri = .ok n → nameOK n = true → handlerVal uri = .okName n) := by
  refine ⟨?_, ?_, ?_⟩
  · intro h
    unfold handlerVal parseName
    rw [if_pos h]
    rfl
  · intro n hp hn
    unfold handlerVal
    rw [hp]
    simp [hn]
    rfl
  · intro n hp hn
    unfold handlerVal
    rw [hp]
    simp [hn]

/-- C6 amended, witness at the URI `/v2/x/blobs`. -/
theorem c6_validation_outcomes_witness :
    countSlash (dropPre "/v2/".data "/v2/x/blobs".data) ≤ 1 ∧
    valStatus (handlerVal "/v2/x/blobs".data) = some 500 :=
  ⟨by decide, (c6_validation_outcomes "/v2/x/blobs".data).1 (by decide)⟩

/-- C7 counterexample: the claim says `parseName("/v2/" + X + "/blobs/uploads/")
= X` for every X matching the name grammar with at least two components.
`X = a/blobs` matches the grammar (the regex does not reserve the endpoint
keywords), yet the component scan stops at its `blobs` component and returns
just `a`. -/
theorem c7_parsename_cex :
    nameOK "a/blobs".data = true ∧
    1 ≤ countSlash "a/blobs".data ∧
    parseName "/v2/a/blobs/blobs/uploads/".data = .ok "a".data ∧
    "a".data ≠ "a/blobs".data :=
  ⟨by decide, by decide, by rfl, by decide⟩

/-- C7 amended: the round trip holds when additionally no component of X is
an endpoint keyword; and in general the returned name is all components
before the first endpoint keyword only for trimmed paths with more than two
slashes, while a trimmed path with exactly two slashes yields its first
component only. -/
theorem c7_parsename_uploads :
    (∀ s : Str, nameOK s = true → 1 ≤ countSlash s →
       (∀ p ∈ splitOnSlash s, isEndpointKw p = false) →
       parseName ("/v2/".data ++ s ++ "/blobs/uploads/".data) = .ok s) ∧
    (∀ t : Str, 2 < countSlash t →
       parseName ("/v2/".data ++ t) =
         .ok (joinSlash ((splitOnSlash t).takeWhile (fun p => !(isEndpointKw p))))) ∧
    (∀ t : Str, countSlash t = 2 →
       parseName ("/v2/".data ++ t) = .ok ((splitOnSlash t).headD [])) := by
  refine ⟨?_, ?_, ?_⟩
  · intro s _hname hcnt hkw
    rw [List.append_assoc]
    unfold parseName
    rw [dropPre_exact]
    have hcs : countSlash (s ++ "/blobs/uploads/".data) = countSlash s + 3 := by
      rw [countSlash_append]
      rfl
    rw [if_neg (by omega), if_neg (by omega)]
    rw [show ("/blobs/uploads/".data : Str) = '/' :: "blobs/uploads/".data from rfl,
        splitOnSlash_append]
    rw [takeWhile_append_all _ _ _ (fun p hp => by rw [hkw p hp]; rfl)]
    rw [show (splitOnSlash "blobs/uploads/".data).takeWhile
          (fun p => !(isEndpointKw p)) = [] from by decide]
    rw [List.append_nil, joinSlash_splitOnSlash]
  · intro t ht
    unfold parseName
    rw [dropPre_exact]
    rw [if_neg (by omega), if_neg (by omega)]
  · intro t ht
    unfold parseName
    rw [dropPre_exact]
    rw [if_neg (by omega), if_pos ht]

/-- C7 amended, witness at `X = lib/app`. -/
theorem c7_parsename_uploads_witness :
    nameOK "lib/app".data = true ∧
    parseName ("/v2/".data ++ "lib/app".data ++ "/blobs/uploads/".data) = .ok "lib/app".data :=
  ⟨by decide, c7_parsename_uploads.1 "lib/app".data (by decide) (by decide) (by decide)⟩

/-- C8 counterexample: the claim says a manifest PUT followed by a GET of the
returned digest yields the stored bytes.  Starting from a repository whose
directory `a` has no top-level `manifest.json` (reachable by a PUT with the
unvalidated reference `a/sub`), the digest scan of the subsequent GET aborts
at `a` with an error and the GET answers 404 instead of the manifest. -/
theorem c8_roundtrip_cex :
    (manifestPut ⟨false, [], [("a".data, none)]⟩ "v1".data [123, 125]).1 = 201 ∧
    manifestGet (manifestPut ⟨false, [], [("a".data, none)]⟩ "v1".data [123, 125]).2.2
        ((manifestPut ⟨false, [], [("a".data, none)]⟩ "v1".data [123, 125]).2.1) =
      (404, none) ∧
    ¬ (manifestGet (manifestPut ⟨false, [], [("a".data, none)]⟩ "v1".data [123, 125]).2.2
        ((manifestPut ⟨false, [], [("a".data, none)]⟩ "v1".data [123, 125]).2.1) =
      (200, some [123, 125])) :=
  ⟨by decide, by decide, by decide⟩

/-- C8 amended: provided the reference matches the reference grammar and is
not the reserved name `_blobs` (the grammar admits `_blobs`, but a PUT with
that reference drops `manifest.json` into the blob directory, which the
digest scan skips, so the GET by the returned digest answers 404 even from
the empty repository), the PUT answers 201 with the digest of the body in
the `Location`, and the subsequent GET by that digest returns exactly the
stored bytes as long as every pre-existing top-level tag directory holds a
`manifest.json` and any stored manifest whose digest collides with the new
one has identical bytes. -/
theorem c8_roundtrip_guarded (r : Repo) (ref : Str) (M : Bytes)
    (h1 : refOK ref = true) (h2 : ref ≠ "_blobs".data)
    (h3 : ∀ e ∈ r.tags, (e.2).isSome = true)
    (h4 : ∀ e ∈ r.tags, ∀ m, e.2 = some m → getDigest m = getDigest M → m = M) :
    (manifestPut r ref M).1 = 201 ∧
    (manifestPut r ref M).2.1 = getDigest M ∧
    manifestGet (manifestPut r ref M).2.2 (getDigest M) = (200, some M) := by
  have hcs : containsStr ref "/".data = false := refOK_slash ref h1
  have hput : manifestPut r ref M =
      (201, getDigest M, ⟨r.blobsDir, r.blobs, setPair r.tags ref (some M)⟩) := by
    simp [manifestPut, h2, hcs]
  refine ⟨by rw [hput], by rw [hput], ?_⟩
  rw [hput]
  have hro := refOK_getDigest M
  have hdo := digestOK_getDigest M
  have hscan : findManifestList (sortLe pairLe (setPair r.tags ref (some M))) (getDigest M)
      = Except.ok (some M) := by
    apply findManifestList_finds
    · intro e he
      rcases List.mem_append.mp ((mem_sortLe _ _ _).mp he) with hf | hs
      · exact h3 e (List.mem_filter.mp hf).1
      · simp only [List.mem_singleton] at hs
        subst hs
        rfl
    · intro e he m hm hd
      rcases List.mem_append.mp ((mem_sortLe _ _ _).mp he) with hf | hs
      · exact h4 e (List.mem_filter.mp hf).1 m hm hd
      · simp only [List.mem_singleton] at hs
        subst hs
        simp only at hm
        injection hm with h6
        exact h6.symm
    · rfl
    · exact ⟨(ref, some M), (mem_sortLe _ _ _).mpr (List.mem_append_right _ (by simp)), h2, rfl⟩
  simp [manifestGet, hro, hdo, hscan]

/-- C8 amended, witness: fresh repository, reference `v1`, manifest bytes
`[7, 8]`. -/
theorem c8_roundtrip_guarded_witness :
    refOK "v1".data = true ∧
    manifestGet (manifestPut ⟨false, [], []⟩ "v1".data [7, 8]).2.2 (getDigest [7, 8]) =
      (200, some [7, 8]) :=
  ⟨by decide,
   (c8_roundtrip_guarded ⟨false, [], []⟩ "v1".data [7, 8] (by decide) (by decide)
     (fun e he => absurd he (List.not_mem_nil e))
     (fun e he => absurd he (List.not_mem_nil e))).2.2⟩

/-- C9: the claim says the tags-list pagination is total and clamps `n` to the
number of tags.  The code panics (modelled by `none`) on `n` larger than the
tag count (`tags[:n]` out of bounds), on non-numeric `n` (explicit
`panic(err)`), and on a `last` value that is absent from the tag list
(`slices.Index` returns -1 and `tags[-1:]` panics). -/
theorem c9_tags_overflow :
    paginate ["a".data, "b".data] "5".data "a".data = none ∧
    paginate ["a".data] "x".data "a".data = none ∧
    paginate ["a".data, "b".data] "1".data "z".data = none :=
  ⟨by decide, by decide, by decide⟩

/-- C10 counterexample: the claim says every request is answered by exactly
one dispatcher arm with at most one status write.  A POST to
`/v2/lib/app/blobs/uploads/` with no query parameters is matched by end-4a
(which writes `Location` and 202 and falls through) and then by end-4b (which
writes a second status, 400, and the body `Digest missing`): two status
writes on one response. -/
theorem c10_dispatch_cex :
    ¬ (countStatus (dispatchPost [] "lib/app".data "/v2/lib/app/blobs/uploads/".data []
        "u1".data "u2".data []).1 ≤ 1) := by decide

/-- C10 amended: the dispatcher arms are not mutually exclusive.  For a POST
to `/v2/lib/app/blobs/uploads/` with no query parameters the response trace
is exactly: the `Location` header and status 202 from end-4a, then a second
status write (400) and the `Digest missing` body from end-4b; the store is
untouched.  (net/http keeps the first status, so the client sees 202 with
the error text as body.) -/
theorem c10_dispatch_double_write :
    dispatchPost [] "lib/app".data "/v2/lib/app/blobs/uploads/".data []
        "u1".data "u2".data [] =
      ([WEv.header "Location".data "/v2/lib/app/blobs/uploads/u1".data, WEv.status 202,
        WEv.status 400, WEv.bodyTxt "Digest missing".data], []) := by decide

